import Mathlib

/-!
Verification of the `juceTest_playMidiSequence` core (`src/Source/SynthSource.h`).

The development is split in two layers.

* A discrete, fully computable layer modelling the event timeline
  (`MidiMsg`, `TimedMsg`, `addEvent`, `getNextIndexAtTime`, `getEventTime`)
  and the per-block event-dispatch logic of `SynthSource::getNextAudioBlock`
  (lines 193-199 of the source): query the sequence for the next event at or
  after the clock, and dispatch it when its time `t` satisfies
  `t > samplePosition && t <= samplePosition + numSamples`.
  Timestamps and the sample clock are C++ `double`s in the source but only
  ever hold integer sample counts (the clock starts at 0 and is advanced by
  the integer block size; all timestamps are set to integer literals), so
  they are embedded as `ℤ`.

* A real-valued layer for `SineWaveVoice` (phase, phase increment, level and
  tail-off state, and the two per-sample render loops) and for the
  surrounding synthesiser plumbing.  C++ `double`/`float` arithmetic is
  embedded as exact real arithmetic on `ℝ`.
-/

open Real

/-- A MIDI message as used by the source: a note-on or note-off with a
channel, a note number and a 0-127 velocity (`spec.md` §3 `NoteEvent`). -/
structure MidiMsg where
  isNoteOn : Bool
  channel : ℤ
  note : ℤ
  velocity : ℕ
deriving DecidableEq, Repr

/-- An event of the timeline: a message plus its absolute timestamp in
samples (`MidiMessage::setTimeStamp` in `initMidiSequence`). -/
structure TimedMsg where
  message : MidiMsg
  timeStamp : ℤ
deriving DecidableEq, Repr

/-- `MidiMessage::noteOn (channel, note, velocity)`. -/
def noteOnMsg (channel note : ℤ) (velocity : ℕ) : MidiMsg :=
  ⟨true, channel, note, velocity⟩

/-- `MidiMessage::noteOff (channel, note, velocity)`. -/
def noteOffMsg (channel note : ℤ) (velocity : ℕ) : MidiMsg :=
  ⟨false, channel, note, velocity⟩

/-- Modelled from the spec: the timeline is "an ordered sequence of NoteEvent"
with "ties broken by insertion order (stable)" (§3).  The JUCE container
`MidiMessageSequence::addEvent` used by `initMidiSequence` is outside `src/`;
it inserts the new event after every event whose timestamp is `≤` the new one,
which on the (always sorted) sequences built here is exactly this insertion. -/
def addEvent : List TimedMsg → TimedMsg → List TimedMsg
  | [], m => [m]
  | e :: rest, m =>
      if e.timeStamp ≤ m.timeStamp then e :: addEvent rest m else m :: e :: rest

/-- The fixed demo timeline built by `SynthSource::initMidiSequence`
(lines 209-241 of the source; `updateMatchedPairs` only links note-on/off
pairs and does not change the event list). -/
def initMidiSequence : List TimedMsg :=
  let s0 : List TimedMsg := []
  let s1 := addEvent s0 ⟨noteOnMsg 1 60 100, 44100⟩
  let s2 := addEvent s1 ⟨noteOffMsg 1 60 0, 44100 * 3⟩
  let s3 := addEvent s2 ⟨noteOnMsg 1 72 100, 44100⟩
  let s4 := addEvent s3 ⟨noteOffMsg 1 72 0, 44100 + 22000⟩
  let s5 := addEvent s4 ⟨noteOnMsg 1 64 100, 44100 * 2⟩
  addEvent s5 ⟨noteOffMsg 1 64 0, 44100 * 2 + 22000⟩

/-- Modelled from the spec: "`nextEventAtOrAfter(position)`" — "what is the
next event at or after sample position P" (§4.1); "querying past the end
returns no event", encoded as in the JUCE query used by the source by
returning the length of the list.  Returns the first index whose timestamp
is `≥ t`. -/
def getNextIndexAtTime (seq : List TimedMsg) (t : ℤ) : ℕ :=
  match seq with
  | [] => 0
  | e :: rest => if t ≤ e.timeStamp then 0 else getNextIndexAtTime rest t + 1

/-- Modelled from the spec: "`timestampOf(index)`" (§4.1).  The JUCE
`MidiMessageSequence::getEventTime` used by the source returns `0` for an
out-of-range index, which is how "no event" reaches the caller. -/
def getEventTime (seq : List TimedMsg) (i : ℕ) : ℤ :=
  ((seq.get? i).map TimedMsg.timeStamp).getD 0

/-- The event-dispatch decision of `SynthSource::getNextAudioBlock`
(lines 193-199): look up the next event at or after `samplePosition`; its
message is copied into the block's midi buffer exactly when its time `t`
satisfies `t > samplePosition && t <= samplePosition + numSamples`.
Returns the index of the dispatched event, if any. -/
def dispatchIdx (seq : List TimedMsg) (samplePosition : ℤ) (numSamples : ℕ) : Option ℕ :=
  let i := getNextIndexAtTime seq samplePosition
  let t := getEventTime seq i
  if samplePosition < t ∧ t ≤ samplePosition + numSamples then some i else none

/-- The list of messages `getNextAudioBlock` adds to the (freshly cleared)
midi buffer for one block: empty, or the single dispatched event's message.
Each message is added at sample offset `0` of the block
(`midiBuffer.addEvent(..., 0)`, line 198). -/
def dispatchMsgs (seq : List TimedMsg) (samplePosition : ℤ) (numSamples : ℕ) : List MidiMsg :=
  match dispatchIdx seq samplePosition numSamples with
  | some i => ((seq.get? i).map TimedMsg.message).toList
  | none => []

/-- The scheduling-relevant state of `SynthSource`: the (read-only) timeline
and the running sample clock. -/
structure SeqClockState where
  sequence : List TimedMsg
  samplePosition : ℤ
deriving DecidableEq, Repr

/-- One `getNextAudioBlock` call, restricted to its scheduling effect:
the dispatched event index (if any) and the clock advanced by the block
size (`samplePosition += numSamples`, line 206). -/
def blockStep (s : SeqClockState) (numSamples : ℕ) : SeqClockState × Option ℕ :=
  (⟨s.sequence, s.samplePosition + numSamples⟩, dispatchIdx s.sequence s.samplePosition numSamples)

/-- The per-block dispatched indices of a run of `getNextAudioBlock` calls
with the given block sizes. -/
def runBlocksDispatch : SeqClockState → List ℕ → List (Option ℕ)
  | _, [] => []
  | s, n :: rest => (blockStep s n).2 :: runBlocksDispatch (blockStep s n).1 rest

/-- The state after a run of `getNextAudioBlock` calls with the given block
sizes. -/
def runBlocksFinal : SeqClockState → List ℕ → SeqClockState
  | s, [] => s
  | s, n :: rest => runBlocksFinal (blockStep s n).1 rest

/-! Basic facts about the timeline query and the dispatch decision. -/

/-- Every index strictly before the one returned by `getNextIndexAtTime`
holds an event strictly before the query position. -/
lemma getNextIndexAtTime_earlier :
    ∀ (seq : List TimedMsg) (p : ℤ) (k : ℕ),
      k < getNextIndexAtTime seq p → k < seq.length → getEventTime seq k < p := by
  intro seq
  induction seq with
  | nil => intro p k hk hlen; simp [getNextIndexAtTime] at hk
  | cons e rest ih =>
      intro p k hk hlen
      by_cases hpe : p ≤ e.timeStamp
      · simp [getNextIndexAtTime, hpe] at hk
      · rw [getNextIndexAtTime, if_neg hpe] at hk
        cases k with
        | zero =>
            simpa [getEventTime, List.get?] using lt_of_not_le hpe
        | succ k =>
            have hk' : k < getNextIndexAtTime rest p := Nat.lt_of_succ_lt_succ hk
            have hlen' : k < rest.length := by
              simpa [List.length_cons, Nat.succ_lt_succ_iff] using hlen
            simpa [getEventTime, List.get?] using ih p k hk' hlen'

/-- Inversion of a successful dispatch: the dispatched index is exactly the
queried one, and its (looked-up) time lies in `(p, p + n]`. -/
lemma dispatchIdx_eq_some {seq : List TimedMsg} {p : ℤ} {n : ℕ} {j : ℕ}
    (h : dispatchIdx seq p n = some j) :
    getNextIndexAtTime seq p = j ∧
      p < getEventTime seq j ∧ getEventTime seq j ≤ p + n := by
  unfold dispatchIdx at h
  by_cases hc : p < getEventTime seq (getNextIndexAtTime seq p) ∧
      getEventTime seq (getNextIndexAtTime seq p) ≤ p + n
  · rw [if_pos hc] at h
    have hj : getNextIndexAtTime seq p = j := by simpa using h
    exact ⟨hj, hj ▸ hc.1, hj ▸ hc.2⟩
  · rw [if_neg hc] at h
    exact absurd h (by simp)

/-- `getEventTime` of an in-range index is the event's timestamp. -/
lemma getEventTime_get {seq : List TimedMsg} {i : ℕ} (h : i < seq.length) :
    getEventTime seq i = (seq.get ⟨i, h⟩).timeStamp := by
  unfold getEventTime
  rw [List.get?_eq_get h]
  rfl

/-- `getEventTime` past the end of the sequence is 0 ("no event"). -/
lemma getEventTime_of_ge {seq : List TimedMsg} {i : ℕ} (h : seq.length ≤ i) :
    getEventTime seq i = 0 := by
  unfold getEventTime
  rw [List.get?_eq_none.mpr h]
  rfl

/-! ## Claim C1 -/

/-- A two-event timeline with both events on one timestamp, in insertion
order (note 60 first, note 72 second), as in the shared-timestamp pair of
`initMidiSequence`. -/
def seqPair : List TimedMsg :=
  [⟨noteOnMsg 1 60 100, 100⟩, ⟨noteOnMsg 1 72 100, 100⟩]

/-- Counterexample to C1.  With two events sharing timestamp 100, a run of
`getNextAudioBlock` calls with block size 512 whose clock passes the shared
timestamp dispatches the first-inserted event (index 0) in the first block
and the second event (index 1) in no block at all: once the clock has
advanced past the timestamp, every query returns an index at or after the
pair, and dispatch demands a timestamp strictly greater than the clock. -/
theorem C1_counterexample :
    runBlocksDispatch ⟨seqPair, 0⟩ [512, 512] = [some 0, none] ∧
    (runBlocksFinal ⟨seqPair, 0⟩ [512, 512]).samplePosition = 1024 ∧
    getEventTime seqPair 0 = 100 ∧ getEventTime seqPair 1 = 100 ∧
    (100 : ℤ) < 1024 := by
  decide

/-- C1 (amended): of two events sharing one timestamp, the later-inserted
one is never dispatched, by any block at any clock position: a query can
only return its index once the clock is strictly past the earlier duplicate,
hence at or past the shared timestamp, and dispatch requires the timestamp
to exceed the clock.  (Only the first-inserted event of the pair can ever
be delivered.) -/
theorem C1_amended (seq : List TimedMsg) (i j : ℕ) (p : ℤ) (n : ℕ)
    (hij : i < j) (hj : j < seq.length)
    (heq : getEventTime seq i = getEventTime seq j) :
    dispatchIdx seq p n ≠ some j := by
  intro h
  obtain ⟨hq, hpt, _⟩ := dispatchIdx_eq_some h
  have hi : i < seq.length := lt_trans hij hj
  have hlt : getEventTime seq i < p :=
    getNextIndexAtTime_earlier seq p i (by simpa [hq] using hij) hi
  rw [heq] at hlt
  exact absurd hpt (not_lt.mpr hlt.le)

/-- Witness for `C1_amended` at a concrete input: for the shared-timestamp
pair, a block at clock 7 of size 5 does not dispatch the second event. -/
theorem C1_witness : dispatchIdx seqPair 7 5 ≠ some 1 :=
  C1_amended seqPair 0 1 7 5 (by decide) (by decide) (by decide)

/-! ## Claim C2 -/

/-- Counterexample to C2.  First input: a single event with timestamp equal
to the clock (both 0) lies inside the claimed window `[clock, clock+count)`
(count = 4) yet is not dispatched.  Second input: a single event with
timestamp `clock + count` lies outside the claimed window yet is
dispatched. -/
theorem C2_counterexample :
    (dispatchIdx [⟨noteOnMsg 1 60 100, 0⟩] 0 4 = none ∧
      (0 : ℤ) ≤ 0 ∧ (0 : ℤ) < 0 + 4) ∧
    (dispatchIdx [⟨noteOnMsg 1 60 100, 4⟩] 0 4 = some 0 ∧
      ¬((0 : ℤ) ≤ 4 ∧ (4 : ℤ) < 0 + 4)) := by
  decide

/-- C2 (amended): for every block call at clock `p` of size `n`, the next
pending event (the in-range index returned by the at-or-after query) is
dispatched iff its timestamp lies in the half-open interval `(p, p + n]`;
in particular an event whose timestamp equals the clock is NOT dispatched
in that block, and one whose timestamp equals `p + n` IS. -/
theorem C2_amended (seq : List TimedMsg) (p : ℤ) (n : ℕ) (i : ℕ)
    (hq : getNextIndexAtTime seq p = i) (hlen : i < seq.length) :
    (dispatchIdx seq p n = some i ↔
        p < (seq.get ⟨i, hlen⟩).timeStamp ∧ (seq.get ⟨i, hlen⟩).timeStamp ≤ p + n) ∧
    ((seq.get ⟨i, hlen⟩).timeStamp = p → dispatchIdx seq p n = none) ∧
    ((seq.get ⟨i, hlen⟩).timeStamp = p + n → 0 < n → dispatchIdx seq p n = some i) := by
  have he : getEventTime seq i = (seq.get ⟨i, hlen⟩).timeStamp := getEventTime_get hlen
  rw [← he]
  refine ⟨⟨fun h => (dispatchIdx_eq_some h).2, fun h => ?_⟩, fun h => ?_, fun h hn => ?_⟩
  · unfold dispatchIdx
    rw [hq, if_pos h]
  · unfold dispatchIdx
    rw [hq, if_neg]
    rintro ⟨h1, -⟩
    rw [h] at h1
    exact lt_irrefl p h1
  · unfold dispatchIdx
    rw [hq, if_pos]
    refine ⟨?_, le_of_eq h⟩
    rw [h]
    have : (0 : ℤ) < n := by exact_mod_cast hn
    linarith

/-- The single-event timeline used to witness `C2_amended`. -/
def seqC2 : List TimedMsg := [⟨noteOnMsg 1 60 100, 10⟩]

/-- Witness for `C2_amended` at a concrete input (event at time 10, clock 3,
block size 7: the timestamp equals `clock + count` and is dispatched). -/
theorem C2_witness :
    (dispatchIdx seqC2 3 7 = some 0 ↔
        (3 : ℤ) < (seqC2.get ⟨0, by decide⟩).timeStamp ∧
          (seqC2.get ⟨0, by decide⟩).timeStamp ≤ 3 + 7) ∧
    ((seqC2.get ⟨0, by decide⟩).timeStamp = 3 → dispatchIdx seqC2 3 7 = none) ∧
    ((seqC2.get ⟨0, by decide⟩).timeStamp = 3 + 7 → 0 < 7 →
        dispatchIdx seqC2 3 7 = some 0) :=
  C2_amended seqC2 3 7 0 (by decide) (by decide)

/-! ## Claim C5 -/

/-- A timeline with two events (times 100 and 200) that both fall inside the
first 512-sample block's window. -/
def seqC5 : List TimedMsg :=
  [⟨noteOnMsg 1 60 100, 100⟩, ⟨noteOnMsg 1 64 100, 200⟩]

/-- Counterexample to C5.  Both events fall in the window `[0, 512)` of the
first block; only the earliest (index 0) is dispatched there — but the
other is NOT delivered by any subsequent block's query: the run of three
512-sample blocks ends with the clock at 1536, far past timestamp 200, with
event 1 dispatched in no block. -/
theorem C5_counterexample :
    runBlocksDispatch ⟨seqC5, 0⟩ [512, 512, 512] = [some 0, none, none] ∧
    (0 : ℤ) ≤ 100 ∧ (100 : ℤ) < 0 + 512 ∧
    (0 : ℤ) ≤ 200 ∧ (200 : ℤ) < 0 + 512 ∧
    (runBlocksFinal ⟨seqC5, 0⟩ [512, 512, 512]).samplePosition = 1536 := by
  decide

/-- C5 (amended): per block at most one timeline event is dispatched, and a
dispatched event is the earliest among the events due after the clock; but
the remaining events of a crowded block are NOT delivered later: an event
whose timestamp is at or before the clock is never dispatched at that clock
or any later one, and the clock only ever advances (by the block size). -/
theorem C5_amended (seq : List TimedMsg) (p : ℤ) (n : ℕ)
    (hsort : seq.Pairwise (fun a b => a.timeStamp ≤ b.timeStamp))
    (hp : 0 ≤ p) :
    (dispatchMsgs seq p n).length ≤ 1 ∧
    (∀ j, getEventTime seq j ≤ p → dispatchIdx seq p n ≠ some j) ∧
    (∀ i, dispatchIdx seq p n = some i → ∀ k, k < seq.length →
        p < getEventTime seq k → getEventTime seq i ≤ getEventTime seq k) ∧
    (∀ s : SeqClockState, (blockStep s n).1.samplePosition = s.samplePosition + n) := by
  refine ⟨?_, ?_, ?_, fun s => rfl⟩
  · unfold dispatchMsgs
    cases hd : dispatchIdx seq p n with
    | none => simp
    | some i => rcases hg : seq[i]? with - | e <;> simp [hg]
  · intro j hj h
    obtain ⟨-, hpt, -⟩ := dispatchIdx_eq_some h
    exact absurd hpt (not_lt.mpr hj)
  · intro i hdisp k hk hpk
    obtain ⟨hq, hpi, -⟩ := dispatchIdx_eq_some hdisp
    have hi : i < seq.length := by
      by_contra hge
      rw [getEventTime_of_ge (le_of_not_lt hge)] at hpi
      exact absurd (lt_of_le_of_lt hp hpi) (lt_irrefl 0)
    rcases Nat.lt_or_ge k i with hki | hik
    · exact absurd (getNextIndexAtTime_earlier seq p k (by simpa [hq] using hki) hk)
        (not_lt.mpr hpk.le)
    · rcases Nat.eq_or_lt_of_le hik with heq | hlt
      · exact le_of_eq (by rw [heq])
      · rw [getEventTime_get hi, getEventTime_get hk]
        exact List.pairwise_iff_get.mp hsort ⟨i, hi⟩ ⟨k, hk⟩ hlt

/-- Witness for `C5_amended` at a concrete input: the sorted two-event
timeline, clock 0, block size 512. -/
theorem C5_witness :
    (dispatchMsgs seqC5 0 512).length ≤ 1 ∧
    dispatchIdx seqC5 0 512 ≠ some 5 ∧
    getEventTime seqC5 0 ≤ getEventTime seqC5 1 ∧
    (blockStep ⟨seqC5, 0⟩ 512).1.samplePosition = 0 + 512 := by
  have h := C5_amended seqC5 0 512 (by decide) (by decide)
  exact ⟨h.1, h.2.1 5 (by decide), h.2.2.1 0 (by decide) 1 (by decide) (by decide),
    h.2.2.2 ⟨seqC5, 0⟩⟩

/-!
## The voice layer

`SineWaveVoice` from `src/Source/SynthSource.h`, lines 26-116.  The four
`double` members (line 115) are embedded as real numbers; the
`currentlyPlayingNote` member of the JUCE `SynthesiserVoice` base class
(set to the note on note-on, reset to `-1` by `clearCurrentNote()`) is
carried along so that "idle" and note-off routing are expressible.
-/

/-- The state of one `SineWaveVoice` (source line 115 plus the base class's
currently-playing note). -/
@[ext]
structure SineWaveVoice where
  currentAngle : ℝ
  angleDelta : ℝ
  level : ℝ
  tailOff : ℝ
  playingNote : ℤ

/-- A multi-channel output accumulator: channel index → sample index →
value.  Only channels below the channel count of a given render call are
ever touched. -/
def Buffer : Type := ℕ → ℕ → ℝ

/-- The all-zero buffer. -/
noncomputable def bz : Buffer := fun _ _ => 0

/-- One pass of `for (auto i = outputBuffer.getNumChannels(); --i >= 0;)
outputBuffer.addSample (i, startSample, currentSample)` (source lines 79-80
and 102-103): add `val` into every channel below `nc` at sample `s`. -/
noncomputable def addSampleAll (nc : ℕ) (buf : Buffer) (s : ℕ) (val : ℝ) : Buffer :=
  fun ch j => if ch < nc ∧ j = s then buf ch j + val else buf ch j

/-- `bufferToFill.clearActiveBufferRegion()` (source line 158): zero the
`n`-sample region that is about to be filled, on every channel below `nc`. -/
noncomputable def clearRegion (nc n : ℕ) (buf : Buffer) : Buffer :=
  fun ch j => if ch < nc ∧ j < n then 0 else buf ch j

/-- Modelled from the spec: "frequencyOf maps MIDI pitch number to Hz via
the standard 12-tone-equal-tempered formula referenced to A4=440Hz" (§4.2).
The helper the source calls, `MidiMessage::getMidiNoteInHertz`, is JUCE
library code outside `src/` and computes exactly this formula. -/
noncomputable def midiNoteInHertz (noteNumber : ℤ) : ℝ :=
  440 * (2 : ℝ) ^ (((noteNumber : ℝ) - 69) / 12)

/-- `SineWaveVoice::startNote` (source lines 35-46): reset the phase, set
`level = velocity * 0.15`, `tailOff = 0`, and
`angleDelta = (cyclesPerSecond / sampleRate) * 2π`.  The base class's
currently-playing note is not touched by this method (the synthesiser
records it separately when assigning the voice). -/
noncomputable def startNote (midiNoteNumber : ℤ) (velocity sampleRate : ℝ)
    (v : SineWaveVoice) : SineWaveVoice :=
  { currentAngle := 0
    angleDelta := midiNoteInHertz midiNoteNumber / sampleRate * (2 * π)
    level := velocity * 0.15
    tailOff := 0
    playingNote := v.playingNote }

/-- `SineWaveVoice::stopNote` (source lines 48-64).  With `allowTailOff`,
begin a tail-off (set `tailOff = 1.0`) only if one is not already running;
otherwise reset immediately: `clearCurrentNote()` (playing note := -1) and
`angleDelta = 0`. -/
noncomputable def stopNote (_velocity : ℝ) (allowTailOff : Bool)
    (v : SineWaveVoice) : SineWaveVoice :=
  if allowTailOff then
    (if v.tailOff = 0 then { v with tailOff := 1 } else v)
  else
    { v with playingNote := -1, angleDelta := 0 }

/-- The tail-off render loop of `SineWaveVoice::renderNextBlock` (source
lines 73-95), one sample per recursion step: emit
`sin(currentAngle) * level * tailOff` into every channel at the running
sample position, advance the phase and the position, multiply `tailOff` by
0.99, and if it has dropped at or below 0.005, `clearCurrentNote()`
(playing note := -1), zero `angleDelta` and break out of the loop. -/
noncomputable def tailLoop (nc : ℕ) :
    SineWaveVoice → Buffer → ℕ → ℕ → SineWaveVoice × Buffer
  | v, buf, _, 0 => (v, buf)
  | v, buf, s, n + 1 =>
      let buf' := addSampleAll nc buf s (Real.sin v.currentAngle * v.level * v.tailOff)
      let t' := v.tailOff * 0.99
      if t' ≤ 0.005 then
        (⟨v.currentAngle + v.angleDelta, 0, v.level, t', -1⟩, buf')
      else
        tailLoop nc ⟨v.currentAngle + v.angleDelta, v.angleDelta, v.level, t', v.playingNote⟩
          buf' (s + 1) n

/-- The sustain render loop of `SineWaveVoice::renderNextBlock` (source
lines 96-108): emit `sin(currentAngle) * level` into every channel at the
running sample position and advance phase and position, once per requested
sample. -/
noncomputable def sustainLoop (nc : ℕ) :
    SineWaveVoice → Buffer → ℕ → ℕ → SineWaveVoice × Buffer
  | v, buf, _, 0 => (v, buf)
  | v, buf, s, n + 1 =>
      sustainLoop nc ⟨v.currentAngle + v.angleDelta, v.angleDelta, v.level, v.tailOff, v.playingNote⟩
        (addSampleAll nc buf s (Real.sin v.currentAngle * v.level)) (s + 1) n

/-- `SineWaveVoice::renderNextBlock` (source lines 69-110): do nothing when
`angleDelta == 0`; otherwise run the tail-off loop when `tailOff > 0`, the
sustain loop when not.  Returns the updated voice together with the updated
accumulator. -/
noncomputable def renderNextBlock (nc : ℕ) (v : SineWaveVoice) (buf : Buffer)
    (startSample numSamples : ℕ) : SineWaveVoice × Buffer :=
  if v.angleDelta ≠ 0 then
    if 0 < v.tailOff then tailLoop nc v buf startSample numSamples
    else sustainLoop nc v buf startSample numSamples
  else (v, buf)

/-!
## The synthesiser plumbing

The JUCE `Synthesiser` that `SynthSource` drives is library code outside
`src/`; it is modelled from the spec (§2, §4.3): a fixed pool of voices, a
note-on picks the first idle voice (stealing the first voice in pool order
when none is idle) and starts it with the message's velocity scaled to
`[0,1]`, a note-off releases (with tail-off) every voice assigned to the
pitch, and a block first dispatches the due events, then asks every voice
to render the whole block additively.
-/

/-- A voice as constructed by `new SineWaveVoice()`: all four doubles zero,
no currently-playing note. -/
noncomputable def freshVoice : SineWaveVoice := ⟨0, 0, 0, 0, -1⟩

/-- Modelled from the spec: "first idle voice found" (§4.3), idleness per
§3: "a Voice with tailOff==0 and phaseIncrement==0 is idle and eligible for
reassignment". -/
noncomputable def findFreeVoiceIdx : List SineWaveVoice → Option ℕ
  | [] => none
  | v :: vs =>
      if v.tailOff = 0 ∧ v.angleDelta = 0 then some 0
      else (findFreeVoiceIdx vs).map (· + 1)

/-- Modelled from the spec: `noteOn` of the voice pool (§4.3) — choose the
first idle voice, or steal the first voice in pool order if none is idle;
record the assigned pitch on the voice and call its `start`. -/
noncomputable def noteOnPool (vs : List SineWaveVoice) (pitch : ℤ)
    (velocity sampleRate : ℝ) : List SineWaveVoice :=
  let i := (findFreeVoiceIdx vs).getD 0
  vs.set i (startNote pitch velocity sampleRate
    { vs.getD i freshVoice with playingNote := pitch })

/-- Modelled from the spec: `noteOff` of the voice pool (§4.3) — release
(with tail-off, §2 "note-off signals release") every voice whose assigned
pitch matches; a no-op when none matches. -/
noncomputable def noteOffPool (vs : List SineWaveVoice) (pitch : ℤ) : List SineWaveVoice :=
  vs.map fun v => if v.playingNote = pitch then stopNote 0 true v else v

/-- Modelled from the spec: dispatch of one due event to the voice pool
(§2).  A note-on message carries its velocity scaled from 0-127 to `[0,1]`;
the source's events are note-ons and note-offs only (§3). -/
noncomputable def handleMidiEvent (sampleRate : ℝ) (vs : List SineWaveVoice)
    (m : MidiMsg) : List SineWaveVoice :=
  if m.isNoteOn then noteOnPool vs m.note ((m.velocity : ℝ) / 127) sampleRate
  else noteOffPool vs m.note

/-- Modelled from the spec: "calls `render` on every voice in the pool"
(§4.3 `renderAll`), each voice adding its contribution into the shared
accumulator. -/
noncomputable def renderAllVoices (nc : ℕ) :
    List SineWaveVoice → Buffer → ℕ → ℕ → List SineWaveVoice × Buffer
  | [], buf, _, _ => ([], buf)
  | v :: vs, buf, s, n =>
      let p := renderNextBlock nc v buf s n
      let q := renderAllVoices nc vs p.2 s n
      (p.1 :: q.1, q.2)

/-- The full state of a `SynthSource`: the voice pool, the timeline, the
prepared sample rate and the running sample clock. -/
structure SynthSourceState where
  voices : List SineWaveVoice
  sequence : List TimedMsg
  sampleRate : ℝ
  samplePosition : ℤ

/-- `SynthSource::getNextAudioBlock` (source lines 154-207): clear the
active buffer region, query the timeline once and copy the (at most one)
due event into the midi buffer at offset 0, let the synthesiser process the
events and render every voice over the whole block, and advance the sample
clock by the block size. -/
noncomputable def getNextAudioBlock (st : SynthSourceState) (nc : ℕ) (buf : Buffer)
    (numSamples : ℕ) : SynthSourceState × Buffer :=
  let buf0 := clearRegion nc numSamples buf
  let msgs := dispatchMsgs st.sequence st.samplePosition numSamples
  let voices1 := msgs.foldl (handleMidiEvent st.sampleRate) st.voices
  let p := renderAllVoices nc voices1 buf0 0 numSamples
  (⟨p.1, st.sequence, st.sampleRate, st.samplePosition + numSamples⟩, p.2)

/-! Equation helpers for the two render loops. -/

lemma tailLoop_zero (nc : ℕ) (v : SineWaveVoice) (buf : Buffer) (s : ℕ) :
    tailLoop nc v buf s 0 = (v, buf) := rfl

lemma tailLoop_succ (nc : ℕ) (v : SineWaveVoice) (buf : Buffer) (s n : ℕ) :
    tailLoop nc v buf s (n + 1) =
      if v.tailOff * 0.99 ≤ 0.005 then
        (⟨v.currentAngle + v.angleDelta, 0, v.level, v.tailOff * 0.99, -1⟩,
          addSampleAll nc buf s (Real.sin v.currentAngle * v.level * v.tailOff))
      else
        tailLoop nc ⟨v.currentAngle + v.angleDelta, v.angleDelta, v.level,
            v.tailOff * 0.99, v.playingNote⟩
          (addSampleAll nc buf s (Real.sin v.currentAngle * v.level * v.tailOff))
          (s + 1) n := rfl

lemma sustainLoop_zero (nc : ℕ) (v : SineWaveVoice) (buf : Buffer) (s : ℕ) :
    sustainLoop nc v buf s 0 = (v, buf) := rfl

lemma sustainLoop_succ (nc : ℕ) (v : SineWaveVoice) (buf : Buffer) (s n : ℕ) :
    sustainLoop nc v buf s (n + 1) =
      sustainLoop nc ⟨v.currentAngle + v.angleDelta, v.angleDelta, v.level,
          v.tailOff, v.playingNote⟩
        (addSampleAll nc buf s (Real.sin v.currentAngle * v.level)) (s + 1) n := rfl

/-- An idle voice (`angleDelta == 0`) renders nothing and is left unchanged
(the outer guard of `renderNextBlock`, source line 71). -/
lemma renderNextBlock_idle {v : SineWaveVoice} (nc : ℕ) (buf : Buffer) (s n : ℕ)
    (h : v.angleDelta = 0) : renderNextBlock nc v buf s n = (v, buf) := by
  unfold renderNextBlock
  rw [if_neg]
  simp [h]

lemma renderNextBlock_tail {v : SineWaveVoice} (nc : ℕ) (buf : Buffer) (s n : ℕ)
    (hδ : v.angleDelta ≠ 0) (ht : 0 < v.tailOff) :
    renderNextBlock nc v buf s n = tailLoop nc v buf s n := by
  unfold renderNextBlock
  rw [if_pos hδ, if_pos ht]

lemma renderNextBlock_sustain {v : SineWaveVoice} (nc : ℕ) (buf : Buffer) (s n : ℕ)
    (hδ : v.angleDelta ≠ 0) (ht : ¬ 0 < v.tailOff) :
    renderNextBlock nc v buf s n = sustainLoop nc v buf s n := by
  unfold renderNextBlock
  rw [if_pos hδ, if_neg ht]

/-- Through the tail-off loop the envelope stays positive and never grows. -/
lemma tailLoop_tailOff (nc : ℕ) :
    ∀ (n : ℕ) (v : SineWaveVoice) (buf : Buffer) (s : ℕ), 0 < v.tailOff →
      0 < (tailLoop nc v buf s n).1.tailOff ∧
        (tailLoop nc v buf s n).1.tailOff ≤ v.tailOff := by
  intro n
  induction n with
  | zero => intro v buf s h; exact ⟨h, le_refl _⟩
  | succ n ih =>
      intro v buf s h
      rw [tailLoop_succ]
      have h99 : 0 < v.tailOff * 0.99 := by nlinarith
      have hle : v.tailOff * 0.99 ≤ v.tailOff := by nlinarith
      by_cases hc : v.tailOff * 0.99 ≤ 0.005
      · rw [if_pos hc]
        exact ⟨h99, hle⟩
      · rw [if_neg hc]
        obtain ⟨h1, h2⟩ := ih ⟨v.currentAngle + v.angleDelta, v.angleDelta, v.level,
            v.tailOff * 0.99, v.playingNote⟩
          (addSampleAll nc buf s (Real.sin v.currentAngle * v.level * v.tailOff))
          (s + 1) h99
        exact ⟨h1, le_trans h2 hle⟩

/-- Rendering exactly one tail-off sample multiplies the envelope by 0.99,
whether or not the voice then goes idle. -/
lemma tailLoop_one (nc : ℕ) (v : SineWaveVoice) (buf : Buffer) (s : ℕ) :
    (tailLoop nc v buf s 1).1.tailOff = v.tailOff * 0.99 := by
  rw [show (1 : ℕ) = 0 + 1 from rfl, tailLoop_succ]
  by_cases hc : v.tailOff * 0.99 ≤ 0.005
  · rw [if_pos hc]
  · rw [if_neg hc, tailLoop_zero]

/-! ## Claim C6 -/

/-- C6 (confirmed): once a voice is releasing (`tailOff > 0`), a repeated
`stopNote(_, true)` leaves the whole voice — in particular `tailOff` —
unchanged; the envelope after any render is still positive and no larger
than before (so it is non-increasing across successive renders until the
voice goes idle); and each single rendered sample multiplies it by exactly
0.99, hence strictly decreases it. -/
theorem C6_monotonic_decay (v : SineWaveVoice) (vel : ℝ) (nc : ℕ) (buf : Buffer)
    (s n : ℕ) (h : 0 < v.tailOff) :
    stopNote vel true v = v ∧
    (renderNextBlock nc v buf s n).1.tailOff ≤ v.tailOff ∧
    0 < (renderNextBlock nc v buf s n).1.tailOff ∧
    (v.angleDelta ≠ 0 → (renderNextBlock nc v buf s 1).1.tailOff = v.tailOff * 0.99) := by
  refine ⟨?_, ?_, ?_, ?_⟩
  · unfold stopNote
    rw [if_pos rfl, if_neg (ne_of_gt h)]
  · by_cases hδ : v.angleDelta ≠ 0
    · rw [renderNextBlock_tail nc buf s n hδ h]
      exact (tailLoop_tailOff nc n v buf s h).2
    · rw [renderNextBlock_idle nc buf s n (not_not.mp hδ)]
  · by_cases hδ : v.angleDelta ≠ 0
    · rw [renderNextBlock_tail nc buf s n hδ h]
      exact (tailLoop_tailOff nc n v buf s h).1
    · rw [renderNextBlock_idle nc buf s n (not_not.mp hδ)]
      exact h
  · intro hδ
    rw [renderNextBlock_tail nc buf s 1 hδ h]
    exact tailLoop_one nc v buf s

/-- A releasing voice used to witness the envelope claims. -/
noncomputable def tailingVoice : SineWaveVoice := ⟨0, 1, 1, 1, 60⟩

/-- Witness for `C6_monotonic_decay` at a concrete releasing voice. -/
theorem C6_witness :
    stopNote 0 true tailingVoice = tailingVoice ∧
    (renderNextBlock 1 tailingVoice bz 0 5).1.tailOff ≤ tailingVoice.tailOff ∧
    0 < (renderNextBlock 1 tailingVoice bz 0 5).1.tailOff ∧
    (renderNextBlock 1 tailingVoice bz 0 1).1.tailOff = tailingVoice.tailOff * 0.99 := by
  have h := C6_monotonic_decay tailingVoice 0 1 bz 0 5 (by norm_num [tailingVoice])
  exact ⟨h.1, h.2.1, h.2.2.1, h.2.2.2 (by norm_num [tailingVoice])⟩

/-! ## Claim C7 -/

/-- C7 (confirmed): `stopNote(_, false)` immediately silences the voice:
it zeroes `angleDelta` and clears the playing note, and a voice with
`angleDelta = 0` leaves both the buffer and its own state completely
unchanged on every subsequent render call (so it contributes exactly zero
to every sample, with no decay samples produced). -/
theorem C7_immediate_stop (v : SineWaveVoice) (vel : ℝ) (nc : ℕ) (buf : Buffer)
    (s n : ℕ) :
    (stopNote vel false v).angleDelta = 0 ∧
    (stopNote vel false v).playingNote = -1 ∧
    renderNextBlock nc (stopNote vel false v) buf s n = (stopNote vel false v, buf) := by
  refine ⟨rfl, rfl, renderNextBlock_idle nc buf s n rfl⟩

/-! ## Claim C8 -/

/-- C8 (confirmed): `startNote` puts the voice in exactly the state
`phase = 0`, `level = velocity * 0.15`, `tailOff = 0`,
`angleDelta = 2π · (440 · 2^((pitch − 69)/12)) / sampleRate` — the
12-tone-equal-tempered frequency referenced to A4 = 440 Hz — independently
of every previous oscillator/envelope value of the voice (only the
pool-managed playing-note field is left alone), so a retriggered voice
carries no residual phase into its first sample. -/
theorem C8_startNote (v : SineWaveVoice) (pitch : ℤ) (velocity sampleRate : ℝ) :
    startNote pitch velocity sampleRate v =
      ⟨0, 2 * π * (440 * (2 : ℝ) ^ (((pitch : ℝ) - 69) / 12)) / sampleRate,
        velocity * 0.15, 0, v.playingNote⟩ := by
  unfold startNote midiNoteInHertz
  ext <;> simp
  ring

/-! ## Claim C9 -/

/-- C9 (confirmed): rendering a voice whose `angleDelta` is zero leaves
every sample of the buffer and the voice's own state unchanged — the idle
fast path contributes exactly zero and mutates nothing. -/
theorem C9_idle_fast_path (nc : ℕ) (v : SineWaveVoice) (buf : Buffer) (s n : ℕ)
    (h : v.angleDelta = 0) :
    renderNextBlock nc v buf s n = (v, buf) :=
  renderNextBlock_idle nc buf s n h

/-- Witness for `C9_idle_fast_path` on a freshly constructed voice. -/
theorem C9_witness : renderNextBlock 2 freshVoice bz 3 17 = (freshVoice, bz) :=
  C9_idle_fast_path 2 freshVoice bz 3 17 rfl

/-! ## Claim C4 -/

/-- Full characterisation of one tail-off render call: some `1 ≤ m ≤ n`
samples are emitted; after them the envelope is exactly `tailOff · 0.99^m`
(one multiplication per emitted sample); `m` is the first sample at which
the envelope dropped to the 0.005 threshold, if that happens within the
call (in particular an early exit, `m < n`, happens only at the
threshold); the voice is then idle (`angleDelta = 0`, note cleared); and
no sample at or after `s + m` is touched. -/
lemma tailLoop_spec (nc : ℕ) :
    ∀ (n : ℕ) (v : SineWaveVoice) (buf : Buffer) (s : ℕ),
      v.angleDelta ≠ 0 → 0 < v.tailOff → 0 < n →
      ∃ m : ℕ, 1 ≤ m ∧ m ≤ n ∧
        (tailLoop nc v buf s n).1.tailOff = v.tailOff * 0.99 ^ m ∧
        (∀ k, 1 ≤ k → k < m → 0.005 < v.tailOff * 0.99 ^ k) ∧
        (v.tailOff * 0.99 ^ m ≤ 0.005 →
          (tailLoop nc v buf s n).1.angleDelta = 0 ∧
            (tailLoop nc v buf s n).1.playingNote = -1) ∧
        (m < n → v.tailOff * 0.99 ^ m ≤ 0.005) ∧
        (∀ ch j, s + m ≤ j → (tailLoop nc v buf s n).2 ch j = buf ch j) := by
  intro n
  induction n with
  | zero => intro v buf s _ _ h0; exact absurd h0 (lt_irrefl 0)
  | succ n ih =>
      intro v buf s hδ ht _
      rw [tailLoop_succ]
      by_cases hc : v.tailOff * 0.99 ≤ 0.005
      · rw [if_pos hc]
        refine ⟨1, le_refl 1, Nat.succ_le_succ (Nat.zero_le n), by rw [pow_one], ?_, ?_, ?_, ?_⟩
        · intro k hk1 hk2; omega
        · intro _; exact ⟨rfl, rfl⟩
        · intro _; rw [pow_one]; exact hc
        · intro ch j hj
          have hne : j ≠ s := by omega
          simp [addSampleAll, hne]
      · rw [if_neg hc]
        have ht' : (0 : ℝ) < v.tailOff * 0.99 := by nlinarith
        cases n with
        | zero =>
            rw [tailLoop_zero]
            refine ⟨1, le_refl 1, le_refl 1, by rw [pow_one], ?_, ?_, ?_, ?_⟩
            · intro k hk1 hk2; omega
            · intro habs; rw [pow_one] at habs; exact absurd habs hc
            · intro habs; omega
            · intro ch j hj
              have hne : j ≠ s := by omega
              simp [addSampleAll, hne]
        | succ n' =>
            obtain ⟨m', hm1, hm2, hmt, hmf, hmi, hme, hmu⟩ :=
              ih ⟨v.currentAngle + v.angleDelta, v.angleDelta, v.level,
                  v.tailOff * 0.99, v.playingNote⟩
                (addSampleAll nc buf s (Real.sin v.currentAngle * v.level * v.tailOff))
                (s + 1) hδ ht' (Nat.succ_pos n')
            have hpow : ∀ k : ℕ, v.tailOff * 0.99 * 0.99 ^ k = v.tailOff * 0.99 ^ (k + 1) := by
              intro k; rw [pow_succ]; ring
            refine ⟨m' + 1, Nat.succ_le_succ (Nat.zero_le m'), Nat.succ_le_succ hm2,
              ?_, ?_, ?_, ?_, ?_⟩
            · rw [hmt]; exact hpow m'
            · intro k hk1 hkm
              cases k with
              | zero => omega
              | succ k' =>
                  rcases Nat.eq_zero_or_pos k' with hk0 | hkp
                  · subst hk0
                    rw [pow_one]
                    exact lt_of_not_le hc
                  · rw [← hpow k']
                    exact hmf k' hkp (by omega)
            · intro hth
              rw [← hpow m'] at hth
              exact hmi hth
            · intro hlt
              rw [← hpow m']
              exact hme (by omega)
            · intro ch j hj
              have h1 := hmu ch j (by omega)
              have hne : j ≠ s := by omega
              rw [h1]
              simp [addSampleAll, hne]

/-- C4 (amended): for a releasing voice (`tailOff > 0`, `angleDelta ≠ 0`)
a render call emits `1 ≤ m ≤ n` samples, multiplying `tailOff` by 0.99
after each; `m` is the first sample at which the envelope dropped at or
below 0.005 when that happens inside the call (an early exit `m < n`
happens only at the threshold), and then the voice is marked idle by
`angleDelta = 0` and a cleared playing note — but `tailOff` is NOT reset
to 0: it keeps its decayed, still positive value `tailOff · 0.99^m`
(`clearCurrentNote()` does not touch the derived class's `tailOff`).  All
samples at or after `s + m` are left untouched by this voice. -/
theorem C4_release_threshold (nc : ℕ) (v : SineWaveVoice) (buf : Buffer) (s n : ℕ)
    (hδ : v.angleDelta ≠ 0) (ht : 0 < v.tailOff) (hn : 0 < n) :
    ∃ m : ℕ, 1 ≤ m ∧ m ≤ n ∧
      (renderNextBlock nc v buf s n).1.tailOff = v.tailOff * 0.99 ^ m ∧
      0 < (renderNextBlock nc v buf s n).1.tailOff ∧
      (∀ k, 1 ≤ k → k < m → 0.005 < v.tailOff * 0.99 ^ k) ∧
      (v.tailOff * 0.99 ^ m ≤ 0.005 →
        (renderNextBlock nc v buf s n).1.angleDelta = 0 ∧
          (renderNextBlock nc v buf s n).1.playingNote = -1) ∧
      (m < n → v.tailOff * 0.99 ^ m ≤ 0.005) ∧
      (∀ ch j, s + m ≤ j → (renderNextBlock nc v buf s n).2 ch j = buf ch j) := by
  rw [renderNextBlock_tail nc buf s n hδ ht]
  obtain ⟨m, hm1, hm2, hmt, hmf, hmi, hme, hmu⟩ := tailLoop_spec nc n v buf s hδ ht hn
  have hpos : 0 < (tailLoop nc v buf s n).1.tailOff := (tailLoop_tailOff nc n v buf s ht).1
  exact ⟨m, hm1, hm2, hmt, hpos, hmf, hmi, hme, hmu⟩

/-- Witness for `C4_release_threshold` at a concrete releasing voice. -/
theorem C4_witness :
    ∃ m : ℕ, 1 ≤ m ∧ m ≤ 2 ∧
      (renderNextBlock 1 tailingVoice bz 0 2).1.tailOff = tailingVoice.tailOff * 0.99 ^ m ∧
      0 < (renderNextBlock 1 tailingVoice bz 0 2).1.tailOff ∧
      (∀ k, 1 ≤ k → k < m → 0.005 < tailingVoice.tailOff * 0.99 ^ k) ∧
      (tailingVoice.tailOff * 0.99 ^ m ≤ 0.005 →
        (renderNextBlock 1 tailingVoice bz 0 2).1.angleDelta = 0 ∧
          (renderNextBlock 1 tailingVoice bz 0 2).1.playingNote = -1) ∧
      (m < 2 → tailingVoice.tailOff * 0.99 ^ m ≤ 0.005) ∧
      (∀ ch j, 0 + m ≤ j → (renderNextBlock 1 tailingVoice bz 0 2).2 ch j = bz ch j) :=
  C4_release_threshold 1 tailingVoice bz 0 2 (by norm_num [tailingVoice])
    (by norm_num [tailingVoice]) (by norm_num)

/-- A voice one decay step away from the release threshold. -/
noncomputable def c4voice : SineWaveVoice := ⟨0, 1, 1, 0.005, 60⟩

/-- Counterexample to C4 as stated.  Rendering this releasing voice makes
it cross the threshold on the first sample: it is marked idle
(`angleDelta = 0`, note cleared) — but its `tailOff` is `0.005 · 0.99 =
0.00495`, not the claimed `0`. -/
theorem C4_counterexample :
    (renderNextBlock 1 c4voice bz 0 3).1.angleDelta = 0 ∧
    (renderNextBlock 1 c4voice bz 0 3).1.playingNote = -1 ∧
    (renderNextBlock 1 c4voice bz 0 3).1.tailOff ≤ 0.005 ∧
    (renderNextBlock 1 c4voice bz 0 3).1.tailOff ≠ 0 := by
  have hδ : c4voice.angleDelta ≠ 0 := by norm_num [c4voice]
  have ht : (0 : ℝ) < c4voice.tailOff := by norm_num [c4voice]
  have hth : c4voice.tailOff * 0.99 ≤ 0.005 := by norm_num [c4voice]
  rw [renderNextBlock_tail 1 bz 0 3 hδ ht,
    show (3 : ℕ) = 2 + 1 from rfl, tailLoop_succ, if_pos hth]
  norm_num [c4voice]

/-! ## Claim C10 -/

/-- Pointwise reading of `addSampleAll`. -/
lemma addSampleAll_apply (nc : ℕ) (buf : Buffer) (s : ℕ) (val : ℝ) (ch j : ℕ) :
    addSampleAll nc buf s val ch j =
      buf ch j + (if ch < nc ∧ j = s then val else 0) := by
  unfold addSampleAll
  by_cases h : ch < nc ∧ j = s <;> simp [h]

/-- The tail loop's state result does not depend on the accumulator, and
its additive contribution to each sample is the same over any accumulator. -/
lemma tailLoop_delta (nc : ℕ) :
    ∀ (n : ℕ) (v : SineWaveVoice) (b₁ b₂ : Buffer) (s : ℕ),
      (tailLoop nc v b₁ s n).1 = (tailLoop nc v b₂ s n).1 ∧
      ∀ ch j, (tailLoop nc v b₁ s n).2 ch j - b₁ ch j =
        (tailLoop nc v b₂ s n).2 ch j - b₂ ch j := by
  intro n
  induction n with
  | zero =>
      intro v b₁ b₂ s
      refine ⟨rfl, fun ch j => ?_⟩
      show b₁ ch j - b₁ ch j = b₂ ch j - b₂ ch j
      ring
  | succ n ih =>
      intro v b₁ b₂ s
      rw [tailLoop_succ, tailLoop_succ]
      by_cases hc : v.tailOff * 0.99 ≤ 0.005
      · rw [if_pos hc, if_pos hc]
        refine ⟨rfl, fun ch j => ?_⟩
        show addSampleAll nc b₁ s (Real.sin v.currentAngle * v.level * v.tailOff) ch j
            - b₁ ch j =
          addSampleAll nc b₂ s (Real.sin v.currentAngle * v.level * v.tailOff) ch j
            - b₂ ch j
        rw [addSampleAll_apply, addSampleAll_apply]
        ring
      · rw [if_neg hc, if_neg hc]
        obtain ⟨hs, hb⟩ := ih ⟨v.currentAngle + v.angleDelta, v.angleDelta, v.level,
            v.tailOff * 0.99, v.playingNote⟩
          (addSampleAll nc b₁ s (Real.sin v.currentAngle * v.level * v.tailOff))
          (addSampleAll nc b₂ s (Real.sin v.currentAngle * v.level * v.tailOff))
          (s + 1)
        refine ⟨hs, fun ch j => ?_⟩
        have h1 := hb ch j
        rw [addSampleAll_apply, addSampleAll_apply] at h1
        linarith

/-- The sustain loop's state result does not depend on the accumulator, and
its additive contribution to each sample is the same over any accumulator. -/
lemma sustainLoop_delta (nc : ℕ) :
    ∀ (n : ℕ) (v : SineWaveVoice) (b₁ b₂ : Buffer) (s : ℕ),
      (sustainLoop nc v b₁ s n).1 = (sustainLoop nc v b₂ s n).1 ∧
      ∀ ch j, (sustainLoop nc v b₁ s n).2 ch j - b₁ ch j =
        (sustainLoop nc v b₂ s n).2 ch j - b₂ ch j := by
  intro n
  induction n with
  | zero =>
      intro v b₁ b₂ s
      refine ⟨rfl, fun ch j => ?_⟩
      show b₁ ch j - b₁ ch j = b₂ ch j - b₂ ch j
      ring
  | succ n ih =>
      intro v b₁ b₂ s
      rw [sustainLoop_succ, sustainLoop_succ]
      obtain ⟨hs, hb⟩ := ih ⟨v.currentAngle + v.angleDelta, v.angleDelta, v.level,
          v.tailOff, v.playingNote⟩
        (addSampleAll nc b₁ s (Real.sin v.currentAngle * v.level))
        (addSampleAll nc b₂ s (Real.sin v.currentAngle * v.level))
        (s + 1)
      refine ⟨hs, fun ch j => ?_⟩
      have h1 := hb ch j
      rw [addSampleAll_apply, addSampleAll_apply] at h1
      linarith

/-- `renderNextBlock`'s state result does not depend on the accumulator,
and its additive contribution to each sample is accumulator-independent. -/
lemma renderNextBlock_delta (nc : ℕ) (v : SineWaveVoice) (b₁ b₂ : Buffer) (s n : ℕ) :
    (renderNextBlock nc v b₁ s n).1 = (renderNextBlock nc v b₂ s n).1 ∧
    ∀ ch j, (renderNextBlock nc v b₁ s n).2 ch j - b₁ ch j =
      (renderNextBlock nc v b₂ s n).2 ch j - b₂ ch j := by
  by_cases hδ : v.angleDelta ≠ 0
  · by_cases ht : 0 < v.tailOff
    · rw [renderNextBlock_tail nc b₁ s n hδ ht, renderNextBlock_tail nc b₂ s n hδ ht]
      exact tailLoop_delta nc n v b₁ b₂ s
    · rw [renderNextBlock_sustain nc b₁ s n hδ ht, renderNextBlock_sustain nc b₂ s n hδ ht]
      exact sustainLoop_delta nc n v b₁ b₂ s
  · rw [renderNextBlock_idle nc b₁ s n (not_not.mp hδ),
      renderNextBlock_idle nc b₂ s n (not_not.mp hδ)]
    refine ⟨rfl, fun ch j => ?_⟩
    show b₁ ch j - b₁ ch j = b₂ ch j - b₂ ch j
    ring

/-- The independent single-voice contribution of a render call: what the
voice adds on top of any accumulator contents (its render into a zero
accumulator). -/
noncomputable def voiceContrib (nc : ℕ) (v : SineWaveVoice) (s n : ℕ) : Buffer :=
  (renderNextBlock nc v bz s n).2

/-- Rendering is purely additive: output = prior contents + contribution. -/
lemma renderNextBlock_buf (nc : ℕ) (v : SineWaveVoice) (buf : Buffer) (s n : ℕ)
    (ch j : ℕ) :
    (renderNextBlock nc v buf s n).2 ch j = buf ch j + voiceContrib nc v s n ch j := by
  have h := (renderNextBlock_delta nc v buf bz s n).2 ch j
  have hz : bz ch j = 0 := rfl
  unfold voiceContrib
  linarith

/-- C10 (confirmed): rendering two voices into the same accumulator region
yields, at every channel and sample, the prior contents plus the sum of the
two voices' independent single-voice contributions; the resulting
accumulator does not depend on the order of the two renders; and each
voice's own post-render state is unaffected by whether the other voice
rendered first. -/
theorem C10_superposition (nc : ℕ) (v₁ v₂ : SineWaveVoice) (buf : Buffer) (s n : ℕ) :
    (∀ ch j, (renderNextBlock nc v₂ (renderNextBlock nc v₁ buf s n).2 s n).2 ch j =
        buf ch j + voiceContrib nc v₁ s n ch j + voiceContrib nc v₂ s n ch j) ∧
    (renderNextBlock nc v₂ (renderNextBlock nc v₁ buf s n).2 s n).2 =
      (renderNextBlock nc v₁ (renderNextBlock nc v₂ buf s n).2 s n).2 ∧
    (renderNextBlock nc v₁ buf s n).1 =
      (renderNextBlock nc v₁ (renderNextBlock nc v₂ buf s n).2 s n).1 := by
  refine ⟨fun ch j => ?_, ?_, ?_⟩
  · rw [renderNextBlock_buf, renderNextBlock_buf]
  · funext ch j
    rw [renderNextBlock_buf, renderNextBlock_buf, renderNextBlock_buf, renderNextBlock_buf]
    ring
  · exact (renderNextBlock_delta nc v₁ buf (renderNextBlock nc v₂ buf s n).2 s n).1

/-! ## Claim C3 -/

/-- The sustain loop never writes below its start position. -/
lemma sustainLoop_untouched (nc : ℕ) :
    ∀ (n : ℕ) (v : SineWaveVoice) (b : Buffer) (s : ℕ) (ch j : ℕ), j < s →
      (sustainLoop nc v b s n).2 ch j = b ch j := by
  intro n
  induction n with
  | zero => intro v b s ch j _; rfl
  | succ n ih =>
      intro v b s ch j hj
      rw [sustainLoop_succ]
      rw [ih _ _ (s + 1) ch j (by omega)]
      have hne : j ≠ s := by omega
      simp [addSampleAll, hne]

/-- Three idle (fresh) voices render nothing. -/
lemma renderAll_fresh3 (nc : ℕ) (b : Buffer) (s n : ℕ) :
    (renderAllVoices nc [freshVoice, freshVoice, freshVoice] b s n).2 = b := by
  simp [renderAllVoices, renderNextBlock_idle, freshVoice]

/-- The voice state produced by the demo's first dispatched event,
`noteOn (1, 60, 100)`: pool slot 0, velocity `100/127`, sample rate
44100. -/
noncomputable def v60 : SineWaveVoice :=
  startNote 60 ((100 : ℝ) / 127) 44100 ⟨0, 0, 0, 0, 60⟩

/-- Dispatching the demo's first event into the all-fresh four-voice pool
starts note 60 on the first voice. -/
lemma handle_C3 :
    handleMidiEvent 44100 [freshVoice, freshVoice, freshVoice, freshVoice]
        (noteOnMsg 1 60 100) =
      [v60, freshVoice, freshVoice, freshVoice] := by
  simp [handleMidiEvent, noteOnMsg, noteOnPool, findFreeVoiceIdx, freshVoice, v60]

/-- The `SynthSource` state right after construction and `prepareToPlay`
at 44100 Hz: four fresh voices, the demo timeline, clock 0. -/
noncomputable def initSt : SynthSourceState :=
  ⟨[freshVoice, freshVoice, freshVoice, freshVoice], initMidiSequence, 44100, 0⟩

/-- With block size 44101, the first block of the demo dispatches
`noteOn 60` (timestamp 44100) and its output is voice 0's render of the
whole block over the cleared buffer. -/
lemma out_C3 :
    (getNextAudioBlock initSt 1 bz 44101).2 =
      (renderNextBlock 1 v60 (clearRegion 1 44101 bz) 0 44101).2 := by
  have hmsgs : dispatchMsgs initMidiSequence 0 44101 = [noteOnMsg 1 60 100] := by decide
  show (renderAllVoices 1
      ((dispatchMsgs initMidiSequence 0 44101).foldl (handleMidiEvent 44100)
        [freshVoice, freshVoice, freshVoice, freshVoice])
      (clearRegion 1 44101 bz) 0 44101).2 = _
  rw [hmsgs]
  show (renderAllVoices 1
      (handleMidiEvent 44100 [freshVoice, freshVoice, freshVoice, freshVoice]
        (noteOnMsg 1 60 100))
      (clearRegion 1 44101 bz) 0 44101).2 = _
  rw [handle_C3]
  show (renderAllVoices 1 [freshVoice, freshVoice, freshVoice]
      (renderNextBlock 1 v60 (clearRegion 1 44101 bz) 0 44101).2 0 44101).2 = _
  rw [renderAll_fresh3]

lemma v60_delta_pos : 0 < v60.angleDelta := by
  have h1 : (0 : ℝ) < midiNoteInHertz 60 := by
    unfold midiNoteInHertz
    positivity
  have hπ := Real.pi_pos
  show (0 : ℝ) < midiNoteInHertz 60 / 44100 * (2 * π)
  positivity

lemma v60_delta_lt_pi : v60.angleDelta < π := by
  have h1 : (0 : ℝ) < midiNoteInHertz 60 := by
    unfold midiNoteInHertz
    positivity
  have h2 : midiNoteInHertz 60 ≤ 440 := by
    unfold midiNoteInHertz
    have hle : (2 : ℝ) ^ ((((60 : ℤ) : ℝ) - 69) / 12) ≤ 1 :=
      Real.rpow_le_one_of_one_le_of_nonpos (by norm_num) (by norm_num)
    nlinarith
  have hπ := Real.pi_pos
  show midiNoteInHertz 60 / 44100 * (2 * π) < π
  have h3 : midiNoteInHertz 60 * π ≤ 440 * π :=
    mul_le_mul_of_nonneg_right h2 (le_of_lt hπ)
  nlinarith

lemma v60_level_pos : 0 < v60.level := by
  show (0 : ℝ) < (100 : ℝ) / 127 * 0.15
  norm_num

/-- The first block's output at channel 0, sample 1 — a sample position
strictly before the dispatched event's timestamp offset 44100 — is the
started oscillator's second sample. -/
lemma val_C3 :
    (renderNextBlock 1 v60 (clearRegion 1 44101 bz) 0 44101).2 0 1 =
      Real.sin v60.angleDelta * v60.level := by
  have hδ : v60.angleDelta ≠ 0 := ne_of_gt v60_delta_pos
  have ht : ¬ 0 < v60.tailOff := by
    show ¬ (0 : ℝ) < 0
    norm_num
  rw [renderNextBlock_sustain 1 (clearRegion 1 44101 bz) 0 44101 hδ ht]
  rw [show (44101 : ℕ) = 44099 + 1 + 1 from rfl, sustainLoop_succ, sustainLoop_succ]
  rw [sustainLoop_untouched 1 44099 _ _ (0 + 1 + 1) 0 1 (by omega)]
  rw [addSampleAll_apply, addSampleAll_apply]
  have hb : clearRegion 1 (44099 + 1 + 1) bz 0 1 = 0 := by
    simp [clearRegion, bz]
  rw [hb]
  have hang : v60.currentAngle = 0 := rfl
  simp [hang]

/-- Counterexample to C3.  In the demo's first 44101-sample block the
`noteOn 60` event is dispatched; its timestamp 44100 lies strictly inside
the block `[0, 44101)`, so sample 1 lies strictly before the timestamp's
in-block offset — yet the block's output at sample 1 is already nonzero
(the event was inserted at buffer offset 0, not at its timestamp offset),
whereas the same block with no event is silent there. -/
theorem C3_counterexample :
    dispatchIdx initMidiSequence 0 44101 = some 0 ∧
    getEventTime initMidiSequence 0 = 44100 ∧
    (0 : ℤ) < 44100 ∧ (44100 : ℤ) < 0 + 44101 ∧ (1 : ℤ) < 44100 ∧
    (getNextAudioBlock initSt 1 bz 44101).2 0 1 ≠ 0 ∧
    (getNextAudioBlock ⟨[freshVoice, freshVoice, freshVoice, freshVoice], [], 44100, 0⟩
        1 bz 44101).2 0 1 = 0 := by
  refine ⟨by decide, by decide, by decide, by decide, by decide, ?_, ?_⟩
  · rw [out_C3, val_C3]
    exact ne_of_gt (mul_pos (Real.sin_pos_of_pos_of_lt_pi v60_delta_pos v60_delta_lt_pi)
      v60_level_pos)
  · have hmsgs : dispatchMsgs ([] : List TimedMsg) 0 44101 = [] := by decide
    show (renderAllVoices 1
        ((dispatchMsgs ([] : List TimedMsg) 0 44101).foldl (handleMidiEvent 44100)
          [freshVoice, freshVoice, freshVoice, freshVoice])
        (clearRegion 1 44101 bz) 0 44101).2 0 1 = 0
    rw [hmsgs]
    show (renderAllVoices 1 [freshVoice, freshVoice, freshVoice, freshVoice]
        (clearRegion 1 44101 bz) 0 44101).2 0 1 = 0
    simp [renderAllVoices, renderNextBlock_idle, freshVoice, clearRegion, bz]

/-- If the (single) pending event's timestamp lies in the dispatch window
`(p, p + n]`, its message is the block's one midi-buffer entry. -/
lemma dispatchIdx_singleton (m : MidiMsg) (t p : ℤ) (n : ℕ)
    (h₁ : p < t) (h₂ : t ≤ p + n) :
    dispatchIdx [⟨m, t⟩] p n = some 0 := by
  have hq : getNextIndexAtTime [⟨m, t⟩] p = 0 := by
    unfold getNextIndexAtTime
    rw [if_pos (le_of_lt h₁)]
  simp only [dispatchIdx, hq]
  have ht : getEventTime [⟨m, t⟩] 0 = t := rfl
  rw [ht, if_pos ⟨h₁, h₂⟩]

lemma dispatchMsgs_singleton (m : MidiMsg) (t p : ℤ) (n : ℕ)
    (h₁ : p < t) (h₂ : t ≤ p + n) :
    dispatchMsgs [⟨m, t⟩] p n = [m] := by
  unfold dispatchMsgs
  rw [dispatchIdx_singleton m t p n h₁ h₂]
  rfl

/-- C3 (amended): event-to-audio conversion is block-quantized, not
sample-accurate.  A dispatched event is inserted into the midi buffer at
offset 0 and takes effect from the first sample of its block: the block's
audio output, the resulting voices and the advanced clock are identical
for any two timestamps of the event inside the dispatch window — the
in-block offset of the timestamp has no influence at all on the rendered
audio (and samples of the block before the timestamp are affected). -/
theorem C3_block_quantized (voices : List SineWaveVoice) (sr : ℝ) (p : ℤ)
    (m : MidiMsg) (t₁ t₂ : ℤ) (nc : ℕ) (buf : Buffer) (n : ℕ)
    (h₁ : p < t₁) (h₂ : t₁ ≤ p + n) (h₃ : p < t₂) (h₄ : t₂ ≤ p + n) :
    (getNextAudioBlock ⟨voices, [⟨m, t₁⟩], sr, p⟩ nc buf n).2 =
      (getNextAudioBlock ⟨voices, [⟨m, t₂⟩], sr, p⟩ nc buf n).2 ∧
    (getNextAudioBlock ⟨voices, [⟨m, t₁⟩], sr, p⟩ nc buf n).1.voices =
      (getNextAudioBlock ⟨voices, [⟨m, t₂⟩], sr, p⟩ nc buf n).1.voices ∧
    (getNextAudioBlock ⟨voices, [⟨m, t₁⟩], sr, p⟩ nc buf n).1.samplePosition =
      (getNextAudioBlock ⟨voices, [⟨m, t₂⟩], sr, p⟩ nc buf n).1.samplePosition := by
  refine ⟨?_, ?_, ?_⟩ <;>
    · simp only [getNextAudioBlock]
      try rw [dispatchMsgs_singleton m t₁ p n h₁ h₂, dispatchMsgs_singleton m t₂ p n h₃ h₄]

/-- Witness for `C3_block_quantized` at a concrete input: one fresh voice,
a note-on due at timestamp 2 versus 3, block `[0, 4)`. -/
theorem C3_witness :
    (getNextAudioBlock ⟨[freshVoice], [⟨noteOnMsg 1 60 100, 2⟩], 44100, 0⟩ 1 bz 4).2 =
      (getNextAudioBlock ⟨[freshVoice], [⟨noteOnMsg 1 60 100, 3⟩], 44100, 0⟩ 1 bz 4).2 ∧
    (getNextAudioBlock ⟨[freshVoice], [⟨noteOnMsg 1 60 100, 2⟩], 44100, 0⟩ 1 bz 4).1.voices =
      (getNextAudioBlock ⟨[freshVoice], [⟨noteOnMsg 1 60 100, 3⟩], 44100, 0⟩ 1 bz 4).1.voices ∧
    (getNextAudioBlock ⟨[freshVoice], [⟨noteOnMsg 1 60 100, 2⟩], 44100, 0⟩ 1 bz
        4).1.samplePosition =
      (getNextAudioBlock ⟨[freshVoice], [⟨noteOnMsg 1 60 100, 3⟩], 44100, 0⟩ 1 bz
        4).1.samplePosition :=
  C3_block_quantized [freshVoice] 44100 0 (noteOnMsg 1 60 100) 2 3 1 bz 4
    (by decide) (by decide) (by decide) (by decide)
